import Mathlib

/-!
Verification of the `printbl` command-line table previewer core
(`src/main.rs`) against its natural-language specification.

Paths and column names are modelled as `List Char` (the character
sequence of the Rust `&str`); machine integers (`u32`, `usize`) are
modelled as `Nat`, faithful because the source only ever widens
(`u32 as usize`) and never wraps.
-/

namespace Printbl

/-! ## Data model (src/main.rs, lines 12-32) -/

/-- Embeds `enum FileFormat { Csv, Tsv, Parquet }` (main.rs:12-16).
The source passes `Option<&FileFormat>` around; `none` plays the role
the spec calls the `Unknown` format. -/
inductive FileFormat
  | Csv
  | Tsv
  | Parquet
deriving DecidableEq, Repr

/-- Embeds `struct CliArgs` (main.rs:20-32).  `filepath` is the raw
positional argument (default `"-"`), `selected_columns` the already
split projection list. -/
structure CliArgs where
  filepath : List Char
  max_rows : Option Nat
  delimiter : Option Char
  selected_columns : Option (List (List Char))
  no_header : Bool
  column_names_only : Bool
  describe : Bool
  head : Bool
  tail : Bool
  sample : Bool
  markdown : Bool
deriving DecidableEq, Repr

/-- The view of a polars `DataFrame` the dispatcher reads: its column
names (`df.get_column_names()`) and its row count (`df.height()`).
All other `DataFrame` internals are owned by the external engine. -/
structure DataFrame where
  column_names : List (List Char)
  height : Nat
deriving DecidableEq, Repr

/-! ## Row-budget resolver (src/main.rs, lines 205-229) -/

/-- Embeds `get_num_rows_to_parse` (main.rs:205-229): `Some n` is a
bounded row budget of `n`, `None` is unbounded.  The guard order is
the source's: `column_names_only`, then `tail || sample`, then the
explicit `max_rows`, then `head`, then the fall-through. -/
def get_num_rows_to_parse (max_rows : Option Nat)
    (head tail sample column_names_only : Bool) : Option Nat :=
  if column_names_only then
    some 1
  else if tail || sample then
    none
  else
    match max_rows with
    | some n_rows => some n_rows
    | none => if head then some 10 else none

/-! ## Delimiter resolver (src/main.rs, lines 165-170 and 233-241) -/

/-- Embeds `get_default_delimiter` (main.rs:165-170): `Some(Tsv)` maps
to tab, every other format (including `None`, the unknown format) to
comma. -/
def get_default_delimiter (format : Option FileFormat) : Char :=
  match format with
  | some FileFormat.Tsv => '\t'
  | _ => ','

/-- Embeds `get_delimiter` (main.rs:233-241): an explicit user
delimiter wins, otherwise the format default. -/
def get_delimiter (file_format : Option FileFormat)
    (delimiter : Option Char) : Char :=
  match delimiter with
  | some character => character
  | none => get_default_delimiter file_format

/-! ## Format resolver (src/main.rs, lines 153-161)

The source calls Rust's `Path::new(filename).extension()`.  We embed
that library call faithfully: the file name is the last component of
the path after `/`-splitting, skipping trailing empty and `"."`
components, with no file name for a path ending in `".."` (Rust's
`Path::file_name`); the extension is the text after the last `'.'` of
the file name, except that a file name whose only `'.'` is a leading
one has no extension (Rust's `Path::extension`). -/

/-- Scans the reversed path, accumulating the current component in
original character order (`acc`), and returns Rust's
`Path::file_name`: empty and `"."` components at the end are skipped,
a final `".."` component yields no file name. -/
def file_name_aux : List Char → List Char → Option (List Char)
  | acc, [] =>
      if acc = [] ∨ acc = ['.'] ∨ acc = ['.', '.'] then none else some acc
  | acc, c :: rest =>
      if c = '/' then
        if acc = [] ∨ acc = ['.'] then file_name_aux [] rest
        else if acc = ['.', '.'] then none
        else some acc
      else
        file_name_aux (c :: acc) rest

/-- Rust `Path::file_name` on the character list of a path. -/
def path_file_name (filename : List Char) : Option (List Char) :=
  file_name_aux [] filename.reverse

/-- Rust's extension-of-file-name rule (`split_file_at_dot`): no
`'.'` means no extension; a `'.'` only at the front means no
extension (hidden file); otherwise the text after the last `'.'`. -/
def extension_of_file_name (f : List Char) : Option (List Char) :=
  let r := f.reverse
  let e := r.takeWhile (fun c => decide (c ≠ '.'))
  if r.length = e.length then none
  else if r.length = e.length + 1 then none
  else some e.reverse

/-- Rust `Path::new(filename).extension().and_then(OsStr::to_str)`
(main.rs:154). -/
def path_extension (filename : List Char) : Option (List Char) :=
  (path_file_name filename).bind extension_of_file_name

/-- Embeds `get_format_from_filename` (main.rs:153-161): the
case-sensitive match of the extension against `"csv"`, `"tsv"` and
`"parquet"`, anything else (or no extension) giving `none`, the
unknown format. -/
def get_format_from_filename (filename : List Char) : Option FileFormat :=
  let file_extension := path_extension filename
  match file_extension with
  | some e =>
      if e = String.toList "csv" then some FileFormat.Csv
      else if e = String.toList "tsv" then some FileFormat.Tsv
      else if e = String.toList "parquet" then some FileFormat.Parquet
      else none
  | none => none

/-! ## Column-projection parsing (src/main.rs, lines 137-139)

The source builds `selected_columns` by
`s.split(',').map(String::from).collect()`.  Rust `str::split(',')`
on a character sequence is `List.splitOn ','`: the pieces are the
literal (untrimmed, unde-duplicated) texts between consecutive
commas, in order, with an empty string splitting to `[""]`. -/

/-- Embeds the projection-string split of `get_args` (main.rs:137-139). -/
def parse_select_columns (s : List Char) : List (List Char) :=
  s.splitOn ','

/-! ## Argument validator (src/main.rs, lines 35-148)

The clap command declares `conflicts_with_all` lists on `head`
(main.rs:81), `tail` (main.rs:88), `sample` (main.rs:95) and
`column_names_only` (main.rs:117-126).  Clap checks these pairs while
parsing, and on a hit exits the process with an error naming the two
flags, before `get_args` returns — hence before `main` touches the
file.  `find_conflict` embeds that check over the nine boolean-like
argument presences. -/

/-- Which of the nine conflict-relevant arguments are present on the
command line (`max_rows`, `delimiter` and `select_columns` count as
present when given a value). -/
structure RawFlags where
  head : Bool
  tail : Bool
  sample : Bool
  column_names_only : Bool
  max_rows : Bool
  select_columns : Bool
  no_header : Bool
  describe : Bool
  markdown : Bool
deriving DecidableEq, Repr

/-- Is the argument with this clap id present? -/
def RawFlags.is_set (f : RawFlags) (id : List Char) : Bool :=
  if id = String.toList "head" then f.head
  else if id = String.toList "tail" then f.tail
  else if id = String.toList "sample" then f.sample
  else if id = String.toList "column_names_only" then f.column_names_only
  else if id = String.toList "max_rows" then f.max_rows
  else if id = String.toList "select_columns" then f.select_columns
  else if id = String.toList "no_header" then f.no_header
  else if id = String.toList "describe" then f.describe
  else if id = String.toList "markdown" then f.markdown
  else false

/-- The `conflicts_with_all` declarations of `get_args`, transcribed
pair by pair: `head` vs `["sample", "tail"]` (main.rs:81), `tail` vs
`["head", "sample"]` (main.rs:88), `sample` vs `["head", "tail"]`
(main.rs:95), `column_names_only` vs the eight others
(main.rs:117-126). -/
def conflict_pairs : List (List Char × List Char) :=
  [ (String.toList "head", String.toList "sample")
  , (String.toList "head", String.toList "tail")
  , (String.toList "tail", String.toList "head")
  , (String.toList "tail", String.toList "sample")
  , (String.toList "sample", String.toList "head")
  , (String.toList "sample", String.toList "tail")
  , (String.toList "column_names_only", String.toList "head")
  , (String.toList "column_names_only", String.toList "tail")
  , (String.toList "column_names_only", String.toList "sample")
  , (String.toList "column_names_only", String.toList "max_rows")
  , (String.toList "column_names_only", String.toList "select_columns")
  , (String.toList "column_names_only", String.toList "no_header")
  , (String.toList "column_names_only", String.toList "describe")
  , (String.toList "column_names_only", String.toList "markdown") ]

/-- Clap's conflict check: the first declared pair whose two
arguments are both present, if any (the error names both flags). -/
def find_conflict (f : RawFlags) : Option (List Char × List Char) :=
  conflict_pairs.find? (fun p => f.is_set p.1 && f.is_set p.2)

/-- The coarse phases of one invocation of `main`. -/
inductive Step
  | parseAndValidate
  | fileIO
  | render
deriving DecidableEq, Repr

/-- Phase trace of `main` (main.rs:327-410): `get_args` runs first,
and clap exits the process inside it when a declared conflict is hit,
so file access and rendering happen only on conflict-free argument
sets. -/
def invocation_trace (f : RawFlags) : List Step :=
  match find_conflict f with
  | some _ => [Step.parseAndValidate]
  | none => [Step.parseAndValidate, Step.fileIO, Step.render]

/-! ## Loader dispatch (src/main.rs, lines 343-371) -/

/-- How `main` loads the table: stdin when the path is `"-"`; for a
real path, a missing regular file aborts (main.rs:353-355), then the
format match sends `Parquet` to the parquet reader, `None` (unknown
format) to `panic!()` (main.rs:361), and the delimited formats to the
CSV reader. -/
inductive LoadAction
  | fromStdin
  | parquetFile
  | csvFile
  | abortNoFile
  | abortUnknownFormat
deriving DecidableEq, Repr

/-- Embeds the load dispatch of `main` (main.rs:343-371);
`file_exists` stands for `PathBuf::from(filepath).is_file()`. -/
def load_dispatch (filepath : List Char) (file_exists : Bool) : LoadAction :=
  if filepath = String.toList "-" then
    LoadAction.fromStdin
  else if !file_exists then
    LoadAction.abortNoFile
  else
    match get_format_from_filename filepath with
    | some FileFormat.Parquet => LoadAction.parquetFile
    | none => LoadAction.abortUnknownFormat
    | some _ => LoadAction.csvFile

/-! ## View dispatch (src/main.rs, lines 373-409)

After loading, `main` runs four independent `if` blocks and then an
unconditional final print.  Each stdout write of that region becomes
one `RenderEvent`, in program order; the argument recorded for
`tailRows` is the length `main` passes to `df.tail` (literally
`None`, main.rs:388), and the argument of `sampleRows` is the
`sample_size` passed to `df.sample_n_literal` (main.rs:393-404). -/

/-- One stdout write of the dispatch region of `main`. -/
inductive RenderEvent
  | columnsOnly (names : List (List Char))
  | describeStats
  | tailRows (length : Option Nat)
  | sampleSizeDebug (n : Nat)
  | sampleRows (n : Nat)
  | fullTable
deriving DecidableEq, Repr

/-- Is this event one of the six table-view rendering paths the spec
names (columns-only / describe / tail / sample / full; the head view
is the full print of a head-limited table)?  The stray
`println!("{}", sample_size)` debug write (main.rs:400) is not a
table view. -/
def RenderEvent.is_view : RenderEvent → Bool
  | RenderEvent.sampleSizeDebug _ => false
  | _ => true

/-- Embeds the dispatch region of `main` (main.rs:373-409) as the
ordered list of its stdout writes. -/
def render_events (args : CliArgs) (df : DataFrame) : List RenderEvent :=
  (if args.column_names_only then
      [RenderEvent.columnsOnly df.column_names]
    else []) ++
  (if args.describe then [RenderEvent.describeStats] else []) ++
  (if args.tail then [RenderEvent.tailRows none] else []) ++
  (if args.sample then
      let sample_size :=
        match args.max_rows with
        | some s_size => s_size
        | none => df.height
      [RenderEvent.sampleSizeDebug sample_size,
       RenderEvent.sampleRows sample_size]
    else []) ++
  [RenderEvent.fullTable]

/-! ## Spec-side vocabulary

The specification speaks of a `ViewMode` enumeration and a
`RowBudget`; the source encodes the mode as independent booleans and
the budget as `Option<usize>`.  The following definitions are written
from the spec's words, to be compared with the source functions. -/

/-- The spec's closed `ViewMode` enumeration (spec §3). -/
inductive ViewMode
  | Head
  | Tail
  | Sample
  | Describe
  | ColumnsOnly
  | Full
deriving DecidableEq, Repr

/-- The spec's `RowBudget` (spec §4.3). -/
inductive RowBudget
  | Bounded (n : Nat)
  | Unbounded
deriving DecidableEq, Repr

/-- The source's `Option<usize>` budget read as a spec `RowBudget`. -/
def budget_of_option : Option Nat → RowBudget
  | some n => RowBudget.Bounded n
  | none => RowBudget.Unbounded

/-- The mode flag the source sets for a given spec view mode
(`Describe` is a separate flag not consulted by the row-budget
resolver, and `Full` is the absence of every mode flag): the four
booleans are `head`, `tail`, `sample`, `column_names_only`. -/
def mode_flags : ViewMode → Bool × Bool × Bool × Bool
  | ViewMode.Head => (true, false, false, false)
  | ViewMode.Tail => (false, true, false, false)
  | ViewMode.Sample => (false, false, true, false)
  | ViewMode.Describe => (false, false, false, false)
  | ViewMode.ColumnsOnly => (false, false, false, true)
  | ViewMode.Full => (false, false, false, false)

/-- Modelled from the spec: `resolve_row_budget` per the five-step
precedence of §4.3, written from the spec's words for comparison with
`get_num_rows_to_parse`. -/
def resolve_row_budget (mode : ViewMode) (explicit_count : Option Nat) :
    RowBudget :=
  if mode = ViewMode.ColumnsOnly then RowBudget.Bounded 1
  else if mode = ViewMode.Tail ∨ mode = ViewMode.Sample then
    RowBudget.Unbounded
  else
    match explicit_count with
    | some n => RowBudget.Bounded n
    | none =>
        if mode = ViewMode.Head then RowBudget.Bounded 10
        else RowBudget.Unbounded

/-- The row budget the source computes for a spec view mode: the
source function applied to the mode's flag encoding. -/
def code_row_budget (mode : ViewMode) (explicit_count : Option Nat) :
    RowBudget :=
  match mode_flags mode with
  | (h, t, s, c) => budget_of_option (get_num_rows_to_parse explicit_count h t s c)

/-- Modelled from the spec: the extension extraction exactly as claim
C5 words it — the case-sensitive text after the final `'.'` in the
final path segment (the text after the last `'/'`), none when that
segment has no `'.'`. -/
def claim_final_segment (p : List Char) : List Char :=
  (p.reverse.takeWhile (fun c => decide (c ≠ '/'))).reverse

/-- Modelled from the spec: claim C5's extension of a path. -/
def claim_extension (p : List Char) : Option (List Char) :=
  let seg := claim_final_segment p
  if '.' ∈ seg then
    some ((seg.reverse.takeWhile (fun c => decide (c ≠ '.'))).reverse)
  else none

/-- Modelled from the spec: the format resolver as claim C5 words it,
the claim-side extension fed through the same closed extension map. -/
def claim_format (p : List Char) : Option FileFormat :=
  match claim_extension p with
  | some e =>
      if e = String.toList "csv" then some FileFormat.Csv
      else if e = String.toList "tsv" then some FileFormat.Tsv
      else if e = String.toList "parquet" then some FileFormat.Parquet
      else none
  | none => none

/-- The condition claim C7 says the validator must reject: more than
one of head/tail/sample, or columns-only together with any of the
eight other view-affecting arguments. -/
def claimed_violation (f : RawFlags) : Bool :=
  (f.head && f.tail) || (f.head && f.sample) || (f.tail && f.sample) ||
    (f.column_names_only &&
      (f.head || f.tail || f.sample || f.max_rows || f.select_columns ||
        f.no_header || f.describe || f.markdown))

/-- Does the reported conflict, when there is one, name two flags that
are actually both set on the command line? -/
def conflict_names_ok (r : Option (List Char × List Char)) (f : RawFlags) : Bool :=
  match r with
  | none => true
  | some p => f.is_set p.1 && f.is_set p.2

/-! ## Concrete invocations used as witnesses and counterexamples -/

/-- The invocation `printbl data.csv --tail`. -/
def tail_only_args : CliArgs :=
  { filepath := String.toList "data.csv"
    max_rows := none
    delimiter := none
    selected_columns := none
    no_header := false
    column_names_only := false
    describe := false
    head := false
    tail := true
    sample := false
    markdown := false }

/-- The invocation `printbl data.csv --tail -n 5`. -/
def tail_n5_args : CliArgs :=
  { tail_only_args with max_rows := some 5 }

/-- The invocation `printbl data.csv --sample -n 30`. -/
def sample_n30_args : CliArgs :=
  { tail_only_args with tail := false, sample := true, max_rows := some 30 }

/-- The invocation `printbl data.csv --sample`. -/
def sample_nocount_args : CliArgs :=
  { tail_only_args with tail := false, sample := true }

/-- A loaded table of 20 rows with two columns. -/
def df20 : DataFrame :=
  { column_names := [String.toList "name", String.toList "age"], height := 20 }

/-- A loaded table of 7 rows with one column. -/
def df7 : DataFrame :=
  { column_names := [String.toList "name"], height := 7 }

/-! ## Claims -/

/-- C1: the row-budget resolver follows the spec's strict precedence —
columns-only always yields `Bounded 1`; otherwise tail or sample
yields `Unbounded` even with an explicit count; otherwise a present
explicit count `n` yields `Bounded n`; otherwise head yields
`Bounded 10`; otherwise `Unbounded` — including the five enumerated
instances. -/
theorem c1_row_budget_precedence :
    (∀ (mode : ViewMode) (explicit_count : Option Nat),
        code_row_budget mode explicit_count = resolve_row_budget mode explicit_count)
    ∧ code_row_budget ViewMode.ColumnsOnly (some 50) = RowBudget.Bounded 1
    ∧ code_row_budget ViewMode.Tail (some 5) = RowBudget.Unbounded
    ∧ code_row_budget ViewMode.Head none = RowBudget.Bounded 10
    ∧ code_row_budget ViewMode.Head (some 3) = RowBudget.Bounded 3
    ∧ code_row_budget ViewMode.Full none = RowBudget.Unbounded := by
  refine ⟨?_, rfl, rfl, rfl, rfl, rfl⟩
  intro mode explicit_count
  cases mode <;> cases explicit_count <;> rfl

/-- C2 (code bug): on the invocation `printbl data.csv --tail`, two of
the six rendering paths write to standard output — the tail view and
then, unconditionally, the full-table view (main.rs:409 runs on every
invocation) — where the spec, and the source's own `--tail` help text
("Print only the last n rows"), promise exactly one. -/
theorem c2_two_render_paths :
    (render_events tail_only_args df20).filter RenderEvent.is_view =
      [RenderEvent.tailRows none, RenderEvent.fullTable]
    ∧ ((render_events tail_only_args df20).filter RenderEvent.is_view).length = 2 := by
  exact ⟨rfl, rfl⟩

/-- C3 (code bug): on `printbl data.csv --tail -n 5` against a 20-row
table, the dispatcher passes `None` to the engine's tail operation
(main.rs:388 is literally `df.tail(None)`), requesting neither the
explicit 5 rows nor the full 20-row count the claim requires; the
engine's own default length applies instead. -/
theorem c3_tail_ignores_count :
    render_events tail_n5_args df20 =
      [RenderEvent.tailRows none, RenderEvent.fullTable]
    ∧ (render_events tail_n5_args df20).contains (RenderEvent.tailRows (some 5)) = false
    ∧ (render_events tail_n5_args df20).contains (RenderEvent.tailRows (some 20)) = false := by
  exact ⟨rfl, by decide, by decide⟩

/-- C4: the delimiter resolver lets an explicit override win
unconditionally for every format, and otherwise returns tab for the
tab format and comma for the comma format and for the unknown format
(`none`); it is a total pure function into `Char`, so it always
returns a character. -/
theorem c4_delimiter_resolution :
    (∀ (file_format : Option FileFormat) (c : Char),
        get_delimiter file_format (some c) = c)
    ∧ get_delimiter (some FileFormat.Tsv) none = '\t'
    ∧ get_delimiter (some FileFormat.Csv) none = ','
    ∧ get_delimiter none none = ',' :=
  ⟨fun _ _ => rfl, rfl, rfl, rfl⟩

/-- C6 counterexample: on `printbl data.csv --sample -n 30` against a
20-row table, the dispatcher forwards the uncapped sample size 30 to
the engine and never the capped 20 the claim requires (main.rs:393-399
takes `max_rows` as-is; the engine's without-replacement draw of 30
from 20 then fails and the `expect` aborts the run). -/
theorem c6_sample_no_cap :
    (render_events sample_n30_args df20).contains (RenderEvent.sampleRows 20) = false
    ∧ (render_events sample_n30_args df20).contains (RenderEvent.sampleRows 30) = true := by
  exact ⟨by decide, by decide⟩

/-- C6 as amended: in sample mode the dispatcher requests a draw of
`n` rows without replacement where `n` is the explicit count taken
verbatim (no capping), or the full height of the loaded table when no
explicit count was given. -/
theorem c6_sample_size_amended :
    ∀ (args : CliArgs) (df : DataFrame),
      args.sample = true →
      RenderEvent.sampleRows
          (match args.max_rows with
           | some s_size => s_size
           | none => df.height) ∈ render_events args df := by
  intro args df hs
  simp only [render_events, hs, if_true, List.mem_append, List.mem_cons]
  tauto

/-- Witness for the amended C6 at the concrete invocation
`printbl data.csv --sample` against a 7-row table: the dispatcher
requests a draw of all 7 rows. -/
theorem c6_sample_size_amended_witness :
    sample_nocount_args.sample = true
    ∧ RenderEvent.sampleRows 7 ∈ render_events sample_nocount_args df7 :=
  ⟨rfl, c6_sample_size_amended sample_nocount_args df7 rfl⟩

/-- C7: the validator's declared conflict pairs reject exactly the
combinations the claim names (more than one of head/tail/sample, or
columns-only with any other view-affecting argument), the reported
pair names two flags that are both set, and on any rejected
combination the invocation never reaches its file-I/O phase. -/
theorem c7_conflicting_flags :
    ∀ (h t s c n sel nh d m : Bool),
      claimed_violation (RawFlags.mk h t s c n sel nh d m) =
        (find_conflict (RawFlags.mk h t s c n sel nh d m)).isSome
      ∧ conflict_names_ok (find_conflict (RawFlags.mk h t s c n sel nh d m))
          (RawFlags.mk h t s c n sel nh d m) = true
      ∧ (claimed_violation (RawFlags.mk h t s c n sel nh d m) &&
          (invocation_trace (RawFlags.mk h t s c n sel nh d m)).contains Step.fileIO) =
          false := by
  decide

/-- C9: for every non-stdin path whose format resolves to the unknown
format, the loader dispatch aborts (missing file or unknown format)
and never reaches the stdin, CSV or parquet readers — there is no
fallback to a default delimited-text interpretation. -/
theorem c9_unknown_format_rejected :
    ∀ (filepath : List Char) (file_exists : Bool),
      filepath ≠ String.toList "-" →
      get_format_from_filename filepath = none →
      load_dispatch filepath file_exists = LoadAction.abortNoFile
        ∨ load_dispatch filepath file_exists = LoadAction.abortUnknownFormat := by
  intro p ex hp hf
  unfold load_dispatch
  rw [if_neg hp]
  cases ex with
  | false => exact Or.inl rfl
  | true => right; simp [hf]

/-- Witness for C9 at the concrete path `data.xyz` (present on disk):
the format is unknown and the run aborts. -/
theorem c9_unknown_format_rejected_witness :
    get_format_from_filename (String.toList "data.xyz") = none
    ∧ (load_dispatch (String.toList "data.xyz") true = LoadAction.abortNoFile
       ∨ load_dispatch (String.toList "data.xyz") true = LoadAction.abortUnknownFormat) :=
  ⟨rfl, c9_unknown_format_rejected (String.toList "data.xyz") true (by decide) rfl⟩

/-- C10: whenever every explicit count is at least 1 (the clap range
check `1..`, main.rs:54), every bounded budget the row-budget resolver
returns is at least 1 — it never returns a zero-row budget. -/
theorem c10_bounded_budget_positive :
    ∀ (max_rows : Option Nat) (head tail sample column_names_only : Bool),
      (∀ n, max_rows = some n → 1 ≤ n) →
      ∀ k, get_num_rows_to_parse max_rows head tail sample column_names_only = some k →
        1 ≤ k := by
  intro mr hd tl sp cn hpos k hk
  unfold get_num_rows_to_parse at hk
  split at hk
  · injection hk with h; omega
  · split at hk
    · exact absurd hk (by simp)
    · cases mr with
      | some n =>
          have hn := hpos n rfl
          injection hk with h
          omega
      | none =>
          cases hd with
          | false => exact absurd hk (by simp)
          | true => simp at hk; omega

/-- Witness for C10 at `max_rows = some 5` with no mode flags: the
budget is `some 5` and `5 ≥ 1`. -/
theorem c10_bounded_budget_positive_witness :
    get_num_rows_to_parse (some 5) false false false false = some 5 ∧ 1 ≤ 5 :=
  ⟨rfl, c10_bounded_budget_positive (some 5) false false false false
      (fun n hn => by injection hn with h; omega) 5 rfl⟩

/-! ## Path-extension lemmas for C5 -/

/-- On a component that is nonempty and does not begin with `'.'`,
the file-name scan returns exactly the text after the last `'/'` of
the path: the skip rules for empty, `"."` and `".."` components never
fire. -/
theorem file_name_aux_of_plain (r : List Char) :
    ∀ acc : List Char,
      (r.takeWhile (fun ch => decide (ch ≠ '/'))).reverse ++ acc ≠ [] →
      ((r.takeWhile (fun ch => decide (ch ≠ '/'))).reverse ++ acc).head? ≠ some '.' →
      file_name_aux acc r =
        some ((r.takeWhile (fun ch => decide (ch ≠ '/'))).reverse ++ acc) := by
  induction r with
  | nil =>
      intro acc h1 h2
      simp only [List.takeWhile_nil, List.reverse_nil, List.nil_append] at h1 h2 ⊢
      show (if acc = [] ∨ acc = ['.'] ∨ acc = ['.', '.'] then none else some acc) =
        some acc
      rw [if_neg]
      rintro (rfl | rfl | rfl)
      · exact h1 rfl
      · exact h2 rfl
      · exact h2 rfl
  | cons c rest ih =>
      intro acc h1 h2
      by_cases hc : c = '/'
      · subst hc
        rw [List.takeWhile_cons, if_neg (by simp)] at h1 h2 ⊢
        simp only [List.reverse_nil, List.nil_append] at h1 h2 ⊢
        show (if ('/' : Char) = '/' then
                if acc = [] ∨ acc = ['.'] then file_name_aux [] rest
                else if acc = ['.', '.'] then none
                else some acc
              else file_name_aux ('/' :: acc) rest) = some acc
        rw [if_pos rfl, if_neg, if_neg]
        · rintro rfl; exact h2 rfl
        · rintro (rfl | rfl)
          · exact h1 rfl
          · exact h2 rfl
      · have hseg : ((c :: rest).takeWhile (fun ch => decide (ch ≠ '/'))).reverse ++ acc =
            (rest.takeWhile (fun ch => decide (ch ≠ '/'))).reverse ++ (c :: acc) := by
          rw [List.takeWhile_cons, if_pos (by simpa using hc)]
          simp
        rw [hseg] at h1 h2 ⊢
        have hstep : file_name_aux acc (c :: rest) = file_name_aux (c :: acc) rest := by
          show (if c = '/' then
                  if acc = [] ∨ acc = ['.'] then file_name_aux [] rest
                  else if acc = ['.', '.'] then none
                  else some acc
                else file_name_aux (c :: acc) rest) = file_name_aux (c :: acc) rest
          rw [if_neg hc]
        rw [hstep]
        exact ih (c :: acc) h1 h2

/-- Under the same side conditions, Rust's `Path::file_name` is the
claim's final path segment. -/
theorem path_file_name_eq_claim_segment (p : List Char)
    (h1 : claim_final_segment p ≠ [])
    (h2 : (claim_final_segment p).head? ≠ some '.') :
    path_file_name p = some (claim_final_segment p) := by
  have h := file_name_aux_of_plain p.reverse []
  simp only [List.append_nil] at h
  exact h h1 h2

/-- A list containing `'.'` splits as its dot-free prefix, the last
dot, and a remainder. -/
theorem takeWhile_dot_split (l : List Char) (h : '.' ∈ l) :
    ∃ m, l = l.takeWhile (fun ch => decide (ch ≠ '.')) ++ '.' :: m := by
  induction l with
  | nil => cases h
  | cons a t ih =>
      by_cases ha : a = '.'
      · subst ha
        refine ⟨t, ?_⟩
        rw [List.takeWhile_cons, if_neg (by simp)]
        rfl
      · have ht : '.' ∈ t := by
          rcases List.mem_cons.mp h with h' | h'
          · exact absurd h'.symm ha
          · exact h'
        obtain ⟨m, hm⟩ := ih ht
        refine ⟨m, ?_⟩
        rw [List.takeWhile_cons, if_pos (by simpa using ha)]
        exact congrArg (a :: ·) hm

/-- A dot-free list is its own dot-free prefix. -/
theorem takeWhile_dot_all (l : List Char) (h : '.' ∉ l) :
    l.takeWhile (fun ch => decide (ch ≠ '.')) = l := by
  refine List.takeWhile_eq_self_iff.mpr ?_
  intro a ha
  simp only [decide_eq_true_eq]
  rintro rfl
  exact h ha

/-- On a file name that does not begin with `'.'`, Rust's extension
rule is the claim's: the text after the last `'.'`, or nothing when
there is no `'.'`. -/
theorem extension_of_file_name_eq (f : List Char)
    (h2 : f.head? ≠ some '.') :
    extension_of_file_name f =
      (if '.' ∈ f then
        some ((f.reverse.takeWhile (fun ch => decide (ch ≠ '.'))).reverse)
      else none) := by
  by_cases hdot : '.' ∈ f
  · rw [if_pos hdot]
    have hr : '.' ∈ f.reverse := List.mem_reverse.mpr hdot
    obtain ⟨m, hm⟩ := takeWhile_dot_split f.reverse hr
    have hlen : f.reverse.length =
        (f.reverse.takeWhile (fun ch => decide (ch ≠ '.'))).length + (m.length + 1) := by
      conv_lhs => rw [hm]
      simp [Nat.add_comm, Nat.add_assoc, Nat.add_left_comm]
    show (let r := f.reverse
          let e := r.takeWhile (fun ch => decide (ch ≠ '.'))
          if r.length = e.length then none
          else if r.length = e.length + 1 then none
          else some e.reverse) = _
    simp only []
    rw [if_neg (by omega), if_neg]
    intro hlen1
    have hm0 : m = [] := by
      have := hlen
      rw [hlen1] at this
      have : m.length = 0 := by omega
      exact List.length_eq_zero.mp this
    subst hm0
    have hf : f = '.' :: (f.reverse.takeWhile (fun ch => decide (ch ≠ '.'))).reverse := by
      have := congrArg List.reverse hm
      simpa using this
    exact h2 (by rw [hf]; rfl)
  · rw [if_neg hdot]
    have hall : f.reverse.takeWhile (fun ch => decide (ch ≠ '.')) = f.reverse :=
      takeWhile_dot_all f.reverse (fun hx => hdot (List.mem_reverse.mp hx))
    show (let r := f.reverse
          let e := r.takeWhile (fun ch => decide (ch ≠ '.'))
          if r.length = e.length then none
          else if r.length = e.length + 1 then none
          else some e.reverse) = none
    simp only []
    rw [hall, if_pos rfl]

/-- Under the claim's side conditions, the embedded Rust extension of
a path is the claim's extension. -/
theorem path_extension_eq_claim (p : List Char)
    (h1 : claim_final_segment p ≠ [])
    (h2 : (claim_final_segment p).head? ≠ some '.') :
    path_extension p = claim_extension p := by
  unfold path_extension claim_extension
  rw [path_file_name_eq_claim_segment p h1 h2, Option.some_bind]
  exact extension_of_file_name_eq (claim_final_segment p) h2

/-- C5 counterexample: the hidden-file path `".csv"`.  Its final path
segment is `".csv"`, whose text after the final `'.'` is `"csv"`, so
the claim's extraction rule demands the comma-delimited format; the
resolver (Rust's `Path::extension`, for which a leading-dot name has
no extension) yields the unknown format instead. -/
theorem c5_hidden_file_counterexample :
    claim_format (String.toList ".csv") = some FileFormat.Csv
    ∧ get_format_from_filename (String.toList ".csv") = none := by
  exact ⟨by decide, by decide⟩

/-- C5 as amended: for every path whose final segment (the text after
the last `'/'`) is nonempty and does not begin with `'.'`, the format
resolver maps the case-sensitive text after the final `'.'` of that
segment exactly: `"csv"` to comma, `"tsv"` to tab, `"parquet"` to
columnar binary, anything else or no `'.'` at all to the unknown
format, and it never raises an error (it is a total function). -/
theorem c5_format_resolver_amended :
    ∀ p : List Char,
      claim_final_segment p ≠ [] →
      (claim_final_segment p).head? ≠ some '.' →
      get_format_from_filename p = claim_format p := by
  intro p h1 h2
  unfold get_format_from_filename claim_format
  rw [path_extension_eq_claim p h1 h2]

/-- Witness for the amended C5 at the concrete path `"dir/data.csv"`:
the side conditions hold and both readings of the resolver give the
comma-delimited format. -/
theorem c5_format_resolver_amended_witness :
    claim_final_segment (String.toList "dir/data.csv") ≠ []
    ∧ (claim_final_segment (String.toList "dir/data.csv")).head? ≠ some '.'
    ∧ get_format_from_filename (String.toList "dir/data.csv") =
        claim_format (String.toList "dir/data.csv")
    ∧ get_format_from_filename (String.toList "dir/data.csv") = some FileFormat.Csv :=
  ⟨by decide, by decide,
    c5_format_resolver_amended (String.toList "dir/data.csv") (by decide) (by decide),
    by decide⟩

/-! ## Split lemmas for C8 -/

/-- No piece produced by splitting on `','` contains a `','`: each
piece is text strictly between consecutive commas. -/
theorem splitOn_comma_pieces (s : List Char) :
    ∀ piece ∈ s.splitOn ',', ',' ∉ piece := by
  induction s with
  | nil =>
      intro piece hp
      rw [List.splitOn_nil] at hp
      simp only [List.mem_singleton] at hp
      subst hp
      simp
  | cons c t ih =>
      intro piece hp
      by_cases hc : c = ','
      · subst hc
        rw [show (',' :: t).splitOn ',' = [] :: t.splitOn ',' by
              simp [List.splitOn, List.splitOnP_cons]] at hp
        rcases List.mem_cons.mp hp with h' | h'
        · subst h'; simp
        · exact ih piece h'
      · have hne := List.splitOnP_ne_nil (fun a => a == ',') t
        rcases hsp : t.splitOnP (fun a => a == ',') with _ | ⟨h0, rest⟩
        · exact absurd hsp hne
        · rw [show (c :: t).splitOn ',' = (c :: h0) :: rest by
                simp only [List.splitOn, List.splitOnP_cons, hsp]
                rw [if_neg (by simpa using hc)]
                rfl] at hp
          rcases List.mem_cons.mp hp with h' | h'
          · subst h'
            intro hmem
            rcases List.mem_cons.mp hmem with h'' | h''
            · exact hc h''.symm
            · exact ih h0 (by rw [show t.splitOn ',' = h0 :: rest from hsp]; simp) h''
          · exact ih piece (by rw [show t.splitOn ',' = h0 :: rest from hsp]; simp [h'])

/-- Splitting on `','` yields one more piece than there are commas:
nothing is de-duplicated or dropped. -/
theorem splitOn_comma_length (s : List Char) :
    (s.splitOn ',').length = s.count ',' + 1 := by
  induction s with
  | nil => simp
  | cons c t ih =>
      by_cases hc : c = ','
      · subst hc
        rw [show (',' :: t).splitOn ',' = [] :: t.splitOn ',' by
              simp [List.splitOn, List.splitOnP_cons]]
        simp [ih, List.count_cons]
      · have hne := List.splitOnP_ne_nil (fun a => a == ',') t
        rcases hsp : t.splitOnP (fun a => a == ',') with _ | ⟨h0, rest⟩
        · exact absurd hsp hne
        · rw [show (c :: t).splitOn ',' = (c :: h0) :: rest by
                simp only [List.splitOn, List.splitOnP_cons, hsp]
                rw [if_neg (by simpa using hc)]
                rfl]
          have ih' : (h0 :: rest).length = t.count ',' + 1 := by
            rw [show t.splitOn ',' = h0 :: rest from hsp] at ih
            exact ih
          simp only [List.length_cons] at ih' ⊢
          rw [List.count_cons]
          simp [hc, ih']

/-- C8: the projection splitter cuts the raw string on `','` into the
ordered sequence of the literal texts between consecutive commas —
re-joining the pieces with `','` restores the raw string exactly (so
order is preserved and nothing is trimmed), no piece contains a
comma, and there is exactly one piece per comma-gap (no
de-duplication). -/
theorem c8_projection_split :
    ∀ s : List Char,
      [','].intercalate (parse_select_columns s) = s
      ∧ (parse_select_columns s).all (fun piece => !piece.contains ',') = true
      ∧ (parse_select_columns s).length = s.count ',' + 1 := by
  intro s
  refine ⟨List.intercalate_splitOn s ',', ?_, splitOn_comma_length s⟩
  rw [List.all_eq_true]
  intro piece hp
  have := splitOn_comma_pieces s piece hp
  simpa using this

end Printbl
